import Mathlib

/-!
# Verification of the tg-ghost-tag payload engine

A shallow embedding of the library's core (`buildGhostPayloads` and its
helpers) and proofs of the specified properties.

Modelling conventions:
* A JavaScript string is its sequence of UTF-16 code units, modelled as
  `List Nat` (one `Nat` per code unit); `s.length` is the code-unit count,
  exactly as in the host language.
* The host's NFC normalisation (`toNFC`) is modelled as the identity map:
  no property below depends on the choice of normal form, and both the
  source and this model compute every offset from the normalised text.
* A caller-supplied punctuation regular expression is only ever tested
  against single code units (the source rebuilds it without the `g` flag
  and calls `test` on one-character strings), so it is modelled as a
  predicate `Nat → Bool`; an absent pattern behaves as the predicate that
  never matches, which the source realises by skipping the scan entirely.
* Fallible code (`throw`) is modelled with `Except String`; the two
  batching loops are modelled with an explicit fuel parameter (`none`
  meaning fuel exhaustion), and the top-level builder supplies fuel
  `userIds.length + 1`, which is proved sufficient below.
* `replacePosition` numbers are modelled as `Int` (the source only takes
  the numeric branch for finite numbers and truncates them to integers).
-/

/-- A UTF-16 code unit of a JavaScript string. -/
abbrev CodeUnit := Nat

/-- A JavaScript string as its list of UTF-16 code units. -/
abbrev JSStr := List CodeUnit

/-- Telegram user id (`UserId = number`). -/
abbrev UserId := Int

/-- Telegram chat id (`ChatId = number | string`). -/
abbrev ChatId := Sum Int JSStr

/-- JavaScript `s.includes(sub)`: substring occurrence test.
`strIncludes s [] = true` for every `s`, as in the host language. -/
def strIncludes : JSStr → JSStr → Bool
  | [], sub => sub.isEmpty
  | c :: t, sub => sub.isPrefixOf (c :: t) || strIncludes t sub

/-- Where the marker run may be inserted relative to an anchor
(`replacePosition`: `"start" | "end" | number`). -/
inductive ReplacePosition where
  | start
  | end'
  | num (n : Int)
deriving DecidableEq

/-- `fallbackPosition`: `"start" | "end"`. -/
inductive FallbackPosition where
  | start
  | end'
deriving DecidableEq

/-- `onOverflow`: `"split" | "error"`. -/
inductive Overflow where
  | split
  | error
deriving DecidableEq

/-- The `GhostTemplate` options object; absent fields are `none`. -/
structure GhostTemplate where
  before : Option JSStr := none
  after : Option JSStr := none
  char : Option JSStr := none
  message : Option JSStr := none
  charCandidates : Option (List JSStr) := none
  replaceTargets : Option (List JSStr) := none
  replacePosition : Option ReplacePosition := none
  fallbackPosition : Option FallbackPosition := none
  punctuationRegex : Option (CodeUnit → Bool) := none
  preferEndIfNoPunctuation : Option Bool := none
  separateLineForMentions : Option Bool := none
  trailingNewline : Option Bool := none

/-- The `BuildOptions` object; absent fields are `none`. -/
structure BuildOptions where
  maxPerMessage : Option Int := none
  maxTextLength : Option Int := none
  onOverflow : Option Overflow := none

/-- A `text_mention` message entity (the constant `type` field is omitted;
`userId` is the `user.id` field). -/
structure MessageEntity where
  offset : Nat
  length : Nat
  userId : UserId
deriving DecidableEq

/-- A payload for `sendMessage`. -/
structure GhostPayload where
  chat_id : ChatId
  text : JSStr
  entities : List MessageEntity
deriving DecidableEq

/-- `DEFAULT_INV_CANDIDATES`: U+200B, U+2063, U+2060, U+200C, U+200D. -/
def DEFAULT_INV_CANDIDATES : List JSStr :=
  [[0x200B], [0x2063], [0x2060], [0x200C], [0x200D]]

/-- `DEFAULT_PUNCT_RE = /[.!?…]/`, as a single-code-unit predicate. -/
def defaultPunctRe : CodeUnit → Bool := fun c =>
  c == 0x2E || c == 0x21 || c == 0x3F || c == 0x2026

/-- `DEFAULT_MAX_TEXT = 4096`. -/
def DEFAULT_MAX_TEXT : Int := 4096

/-- NFC normalisation, modelled as the identity (see the header note). -/
def toNFC (s : JSStr) : JSStr := s

/-- `assertNoExistingInv`: throws when `s` already contains `inv`. -/
def assertNoExistingInv (s inv : JSStr) : Except String Unit :=
  if strIncludes s inv then
    .error "Template must not already contain INV char"
  else
    .ok ()

/-- `avoidIn.some((s) => s?.includes?.(c))`: does candidate `c` occur in
some present avoid-string? -/
def collides (avoidIn : List (Option JSStr)) (c : JSStr) : Bool :=
  avoidIn.any (fun s => match s with | some s => strIncludes s c | none => false)

/-- The candidate scan of `pickInvChar`: first candidate with exactly one
code unit that collides with no avoid-string, `none` if the scan falls
through. -/
def pickInvCharLoop (avoidIn : List (Option JSStr)) : List JSStr → Option JSStr
  | [] => none
  | c :: rest =>
    if c.length != 1 then pickInvCharLoop avoidIn rest
    else if collides avoidIn c then pickInvCharLoop avoidIn rest
    else some c

/-- `pickInvChar(candidates, ...avoidIn)`: the candidate scan, falling back
to `candidates[0] ?? "​"`. -/
def pickInvChar (candidates : List JSStr) (avoidIn : List (Option JSStr)) : JSStr :=
  match pickInvCharLoop avoidIn candidates with
  | some c => c
  | none => candidates.headD [0x200B]

/-- `inv.repeat(n)`. -/
def repeatStr (s : JSStr) (n : Nat) : JSStr := (List.replicate n s).flatten

/-- Result record of `buildInvisibleText`. -/
structure InvTextResult where
  text : JSStr
  offsets : List Nat
  invChar : JSStr
deriving DecidableEq

/-- The marker `buildInvisibleText` uses: the forced `char`, or
`pickInvChar` avoiding `before` and `after`. -/
def invisibleTextInv (template : GhostTemplate) : JSStr :=
  template.char.getD (pickInvChar (template.charCandidates.getD DEFAULT_INV_CANDIDATES)
    [template.before, template.after])

/-- `buildInvisibleText(count, template)`: classic
`before + INV.repeat(count) + after` (the `count` argument is a list
length at every call site, hence `Nat`; `count <= 0` is `count = 0`). -/
def buildInvisibleText (count : Nat) (template : GhostTemplate) :
    Except String InvTextResult :=
  let inv := invisibleTextInv template
  let before := toNFC (template.before.getD [])
  let after := toNFC (template.after.getD [])
  match assertNoExistingInv before inv with
  | .error e => .error e
  | .ok _ =>
    match assertNoExistingInv after inv with
    | .error e => .error e
    | .ok _ =>
      if count = 0 then .ok ⟨before ++ after, [], inv⟩
      else
        let pfxLen := before.length
        .ok ⟨before ++ repeatStr inv count ++ after,
             (List.range count).map (fun i => pfxLen + i), inv⟩

/-- `buildEntities(offsets, userIds)`: zip offsets with user ids into
length-1 `text_mention` entities; length mismatch throws. -/
def buildEntities (offsets : List Nat) (userIds : List UserId) :
    Except String (List MessageEntity) :=
  if offsets.length != userIds.length then
    .error "offsets.length !== userIds.length"
  else
    .ok ((offsets.zip userIds).map (fun p => ⟨p.1, 1, p.2⟩))

/-- The chunking loop of `chunkUserIds`, with fuel (`userIds.length` steps
always suffice when `maxPerMessage ≥ 1`; the source loop would not
terminate at `maxPerMessage = 0`, which `buildGhostPayloads` rules out by
clamping). -/
def chunkAux : Nat → List UserId → Nat → List (List UserId)
  | 0, _, _ => []
  | _, [], _ => []
  | fuel + 1, u :: us, mpm => (u :: us).take mpm :: chunkAux fuel ((u :: us).drop mpm) mpm

/-- `chunkUserIds(userIds, maxPerMessage)`. -/
def chunkUserIds (userIds : List UserId) (maxPerMessage : Nat) : List (List UserId) :=
  chunkAux userIds.length userIds maxPerMessage

/-- The options record taken by `findAnchorIndex`. -/
structure AnchorOpts where
  replaceTargets : Option (List JSStr)
  replacePosition : Option ReplacePosition
  punctuationRegex : Option (CodeUnit → Bool)
  fallbackPosition : FallbackPosition

/-- `new Set(replaceTargets).has(src[i])`: the one-code-unit string `[c]`
is an element of the target list. -/
def targetsMatch (ts : List JSStr) (c : CodeUnit) : Bool :=
  ts.any (fun t => t == [c])

/-- Test of the optional punctuation predicate; an absent pattern never
matches (the source skips the scan entirely in that case). -/
def punctTest (pr : Option (CodeUnit → Bool)) (c : CodeUnit) : Bool :=
  match pr with
  | some p => p c
  | none => false

/-- Index of the last code unit of `s` satisfying `p` (the source's
end-to-start scan returns the first hit, i.e. the largest index). -/
def lastIdxWhere (p : CodeUnit → Bool) : JSStr → Option Nat
  | [] => none
  | c :: t =>
    match lastIdxWhere p t with
    | some i => some (i + 1)
    | none => if p c then some 0 else none

/-- `findAnchorIndex(src, opts)`:
numeric position (clamped `n+1`) first, then the reverse scan over the
anchor-character set, then the reverse scan with the punctuation pattern,
then the fallback position. -/
def findAnchorIndex (src : JSStr) (opts : AnchorOpts) : Nat :=
  match opts.replacePosition with
  | some (ReplacePosition.num n) =>
    (max 0 (min (Int.ofNat src.length) (n + 1))).toNat
  | rp =>
    match lastIdxWhere (targetsMatch (opts.replaceTargets.getD [])) src with
    | some i => if rp = some ReplacePosition.start then i else i + 1
    | none =>
      match lastIdxWhere (punctTest opts.punctuationRegex) src with
      | some i => if rp = some ReplacePosition.start then i else i + 1
      | none =>
        match opts.fallbackPosition with
        | FallbackPosition.start => 0
        | FallbackPosition.end' => src.length

/-- Result record of `buildSmartBaseText`. -/
structure SmartBase where
  text : JSStr
  baseLen : Nat
  insertAt : Nat
  newlineOverhead : Nat
deriving DecidableEq

/-- `buildSmartBaseText`: splice `count` markers (with optional newline
padding) into `message` at `anchorAt`. -/
def buildSmartBaseText (message inv : JSStr) (count : Nat) (anchorAt : Nat)
    (separateLine trailingNewline : Bool) : SmartBase :=
  let src := toNFC message
  let left := src.take anchorAt
  let right := src.drop anchorAt
  let nlBefore : JSStr := if separateLine then [10] else []
  let nlAfter : JSStr := if trailingNewline then [10] else []
  { text := left ++ nlBefore ++ repeatStr inv count ++ nlAfter ++ right,
    baseLen := left.length + nlBefore.length + nlAfter.length + right.length,
    insertAt := left.length + nlBefore.length,
    newlineOverhead := nlBefore.length + nlAfter.length }

/-- `capCountByLength(baseLen, desiredCount, maxTextLength)`. -/
def capCountByLength (baseLen : Nat) (desiredCount : Nat) (maxTextLength : Int) : Nat :=
  let allowed : Int := max 0 (maxTextLength - (baseLen : Int))
  (max 0 (min (Int.ofNat desiredCount) allowed)).toNat

/-- The smart-mode test: `template.message && template.before === undefined
&& template.after === undefined` (an empty `message` string is falsy). -/
def smartModeOf (t : GhostTemplate) : Bool :=
  (match t.message with | some m => !m.isEmpty | none => false)
    && t.before.isNone && t.after.isNone

/-- The marker character `buildGhostPayloads` uses: forced `char`, or the
mode's `pickInvChar` call (avoiding the message in smart mode, the affixes
in classic mode). -/
def ghostInv (t : GhostTemplate) : JSStr :=
  if smartModeOf t then
    t.char.getD (pickInvChar (t.charCandidates.getD DEFAULT_INV_CANDIDATES) [t.message])
  else
    invisibleTextInv t

/-- The loop-invariant context of the smart-mode batching loop. -/
structure SmartCtx where
  chatId : ChatId
  msg : JSStr
  inv : JSStr
  maxPerMessage : Nat
  maxTextLength : Int
  onOverflow : Overflow
  replaceTargets : Option (List JSStr)
  replacePosition : Option ReplacePosition
  punctuationRegex : Option (CodeUnit → Bool)
  fallbackPosition : FallbackPosition
  separateLine : Bool
  trailingNewline : Bool

/-- One iteration of the smart-mode loop on the not-yet-emitted recipients
`rest`: the number of recipients consumed and the emitted payload, or the
thrown error. -/
def smartStep (ctx : SmartCtx) (rest : List UserId) :
    Except String (Nat × GhostPayload) :=
  let desired := min ctx.maxPerMessage rest.length
  let anchorAt := findAnchorIndex ctx.msg
    ⟨ctx.replaceTargets, ctx.replacePosition, ctx.punctuationRegex, ctx.fallbackPosition⟩
  let base0 := buildSmartBaseText ctx.msg ctx.inv 0 anchorAt
    ctx.separateLine ctx.trailingNewline
  let allowed := capCountByLength base0.baseLen desired ctx.maxTextLength
  if allowed = 0 then
    .error "Base message too long to insert mentions"
  else if ctx.onOverflow == Overflow.error && allowed < desired then
    .error "Text overflow: fewer mentions fit than needed"
  else
    let tk := allowed
    let batch := rest.take tk
    let sb := buildSmartBaseText ctx.msg ctx.inv batch.length anchorAt
      ctx.separateLine ctx.trailingNewline
    if (Int.ofNat sb.text.length) > ctx.maxTextLength then
      .error "Resulting text exceeds maxTextLength (smart mode)"
    else
      let offsets := (List.range batch.length).map (fun i => sb.insertAt + i)
      match buildEntities offsets batch with
      | .error e => .error e
      | .ok entities => .ok (tk, ⟨ctx.chatId, sb.text, entities⟩)

/-- The smart-mode `while (cursor < userIds.length)` loop, over the list of
recipients not yet emitted (`userIds.slice(cursor)`), with fuel; `none`
is fuel exhaustion. -/
def smartLoop (ctx : SmartCtx) : Nat → List UserId →
    Option (Except String (List GhostPayload))
  | 0, _ => none
  | _ + 1, [] => some (.ok [])
  | fuel + 1, u :: us =>
    match smartStep ctx (u :: us) with
    | .error e => some (.error e)
    | .ok (tk, payload) =>
      match smartLoop ctx fuel ((u :: us).drop tk) with
      | none => none
      | some (.error e) => some (.error e)
      | some (.ok ps) => some (.ok (payload :: ps))

/-- The loop-invariant context of the classic-mode loops. -/
structure ClassicCtx where
  chatId : ChatId
  template : GhostTemplate
  inv : JSStr
  capacity : Nat
  maxTextLength : Int
  onOverflow : Overflow

/-- One iteration of the classic-mode inner loop on the recipients
`remaining` of the current chunk: the number of recipients consumed and
the emitted payload, or the thrown error. -/
def classicStep (ctx : ClassicCtx) (remaining : List UserId) :
    Except String (Nat × GhostPayload) :=
  let tk := min remaining.length ctx.capacity
  let part := remaining.take tk
  match buildInvisibleText part.length { ctx.template with char := some ctx.inv } with
  | .error e => .error e
  | .ok r =>
    if (Int.ofNat r.text.length) > ctx.maxTextLength then
      .error "Classic mode: resulting text exceeds maxTextLength"
    else
      match buildEntities r.offsets part with
      | .error e => .error e
      | .ok entities => .ok (tk, ⟨ctx.chatId, r.text, entities⟩)

/-- The classic-mode inner `while (remaining.length > 0)` loop, with fuel;
`none` is fuel exhaustion. -/
def classicInner (ctx : ClassicCtx) : Nat → List UserId →
    Option (Except String (List GhostPayload))
  | 0, _ => none
  | _ + 1, [] => some (.ok [])
  | fuel + 1, u :: us =>
    match classicStep ctx (u :: us) with
    | .error e => some (.error e)
    | .ok (tk, payload) =>
      let rest := (u :: us).drop tk
      if ctx.onOverflow == Overflow.error && !rest.isEmpty then
        some (.error "Classic mode overflow while splitting")
      else
        match classicInner ctx fuel rest with
        | none => none
        | some (.error e) => some (.error e)
        | some (.ok ps) => some (.ok (payload :: ps))

/-- The classic-mode `for (const chunk of chunks)` loop. -/
def classicOuter (ctx : ClassicCtx) : List (List UserId) →
    Option (Except String (List GhostPayload))
  | [] => some (.ok [])
  | chunk :: rest =>
    if ctx.onOverflow == Overflow.error && chunk.length > ctx.capacity then
      some (.error "Classic mode overflow: chunk exceeds capacity")
    else
      match classicInner ctx (chunk.length + 1) chunk with
      | none => none
      | some (.error e) => some (.error e)
      | some (.ok ps) =>
        match classicOuter ctx rest with
        | none => none
        | some (.error e) => some (.error e)
        | some (.ok ps2) => some (.ok (ps ++ ps2))

/-- `buildGhostPayloads`, with the loops carrying fuel
`userIds.length + 1` (smart) and `chunk.length + 1` (classic inner);
`none` is fuel exhaustion, proved unreachable below. -/
def buildGhostPayloadsOpt (chatId : ChatId) (userIds : List UserId)
    (template : GhostTemplate) (opts : BuildOptions) :
    Option (Except String (List GhostPayload)) :=
  let maxPerMessage : Nat := (max 1 (opts.maxPerMessage.getD 100)).toNat
  let maxTextLength : Int := opts.maxTextLength.getD DEFAULT_MAX_TEXT
  let onOverflow : Overflow := opts.onOverflow.getD Overflow.split
  if userIds.isEmpty then some (.ok [])
  else if smartModeOf template then
    let msg := template.message.getD []
    let inv := ghostInv template
    let fallbackPosition := template.fallbackPosition.getD
      (if template.preferEndIfNoPunctuation.getD true then FallbackPosition.end'
       else FallbackPosition.start)
    let punctuationRegex := template.punctuationRegex.getD defaultPunctRe
    let separateLine := template.separateLineForMentions.getD false
    let trailingNewline := template.trailingNewline.getD false
    smartLoop
      ⟨chatId, msg, inv, maxPerMessage, maxTextLength, onOverflow,
       template.replaceTargets, some (template.replacePosition.getD ReplacePosition.end'),
       some punctuationRegex, fallbackPosition, separateLine, trailingNewline⟩
      (userIds.length + 1) userIds
  else
    let chunks := chunkUserIds userIds maxPerMessage
    let inv := ghostInv template
    let before := toNFC (template.before.getD [])
    let after := toNFC (template.after.getD [])
    match assertNoExistingInv before inv with
    | .error e => some (.error e)
    | .ok _ =>
      match assertNoExistingInv after inv with
      | .error e => some (.error e)
      | .ok _ =>
        let baseLen := before.length + after.length
        let capacity : Nat := (max 0 (maxTextLength - (baseLen : Int))).toNat
        if capacity = 0 then
          some (.error "Classic mode: base too long to insert any mentions")
        else
          classicOuter ⟨chatId, template, inv, capacity, maxTextLength, onOverflow⟩ chunks

/-- `buildGhostPayloads(chatId, userIds, template, opts)`. The fuel default
is unreachable (see the termination theorem below). -/
def buildGhostPayloads (chatId : ChatId) (userIds : List UserId)
    (template : GhostTemplate) (opts : BuildOptions) :
    Except String (List GhostPayload) :=
  (buildGhostPayloadsOpt chatId userIds template opts).getD
    (.error "unreachable: out of fuel")

/-! ## Basic helper lemmas -/

theorem assertNoExistingInv_ok_iff {s inv : JSStr} {u : Unit} :
    assertNoExistingInv s inv = .ok u ↔ strIncludes s inv = false := by
  unfold assertNoExistingInv
  constructor
  · intro h
    by_cases hs : strIncludes s inv
    · simp [hs] at h
    · simpa using hs
  · intro h
    simp [h]

theorem repeatStr_length (s : JSStr) (n : Nat) :
    (repeatStr s n).length = n * s.length := by
  induction n with
  | zero => simp [repeatStr]
  | succ k ih =>
    simp only [repeatStr, List.replicate_succ, List.flatten_cons,
      List.length_append] at *
    rw [ih, Nat.succ_mul]
    omega

theorem buildEntities_ok_inv {offs : List Nat} {uids : List UserId}
    {es : List MessageEntity} (h : buildEntities offs uids = .ok es) :
    offs.length = uids.length ∧
    es.map MessageEntity.userId = uids ∧
    es.map MessageEntity.offset = offs ∧
    es.length = uids.length ∧
    (∀ e ∈ es, e.length = 1) := by
  unfold buildEntities at h
  split at h
  · exact absurd h (by simp)
  · rename_i hlen
    have hlen' : offs.length = uids.length := by
      simpa using hlen
    have hes : es = (offs.zip uids).map (fun p => ⟨p.1, 1, p.2⟩) := by
      have := h
      simp only [Except.ok.injEq] at this
      exact this.symm
    subst hes
    refine ⟨hlen', ?_, ?_, ?_, ?_⟩
    · rw [List.map_map]
      have : (MessageEntity.userId ∘ fun p : Nat × UserId => (⟨p.1, 1, p.2⟩ : MessageEntity))
          = Prod.snd := rfl
      rw [this, List.map_snd_zip]
      omega
    · rw [List.map_map]
      have : (MessageEntity.offset ∘ fun p : Nat × UserId => (⟨p.1, 1, p.2⟩ : MessageEntity))
          = Prod.fst := rfl
      rw [this, List.map_fst_zip]
      omega
    · simp [List.length_zip]
      omega
    · intro e he
      simp only [List.mem_map] at he
      obtain ⟨q, _, rfl⟩ := he
      rfl

theorem capCountByLength_le_desired (b d : Nat) (m : Int) :
    capCountByLength b d m ≤ d := by
  simp only [capCountByLength]
  rw [Int.toNat_le]
  apply max_le
  · exact Int.ofNat_nonneg d
  · exact le_trans (min_le_left (Int.ofNat d) (max 0 (m - (b : Int)))) (by simp)

theorem buildSmartBaseText_text_length (msg inv : JSStr) (n a : Nat)
    (sl tl : Bool) :
    (buildSmartBaseText msg inv n a sl tl).text.length =
      (buildSmartBaseText msg inv n a sl tl).insertAt + n * inv.length +
        ((if tl then 1 else 0) + (msg.drop a).length) := by
  simp [buildSmartBaseText, toNFC, repeatStr_length]
  cases sl <;> cases tl <;> simp <;> omega

theorem buildInvisibleText_ok_inv {count : Nat} {t : GhostTemplate}
    {r : InvTextResult} (h : buildInvisibleText count t = .ok r) :
    strIncludes (toNFC (t.before.getD [])) (invisibleTextInv t) = false ∧
    strIncludes (toNFC (t.after.getD [])) (invisibleTextInv t) = false ∧
    r.invChar = invisibleTextInv t ∧
    (count = 0 → r.text = toNFC (t.before.getD []) ++ toNFC (t.after.getD [])
      ∧ r.offsets = []) ∧
    (count ≠ 0 →
      r.text = toNFC (t.before.getD []) ++ repeatStr (invisibleTextInv t) count
        ++ toNFC (t.after.getD []) ∧
      r.offsets = (List.range count).map
        (fun i => (toNFC (t.before.getD [])).length + i)) := by
  cases hb : assertNoExistingInv (toNFC (t.before.getD [])) (invisibleTextInv t) with
  | error e => simp [buildInvisibleText, hb] at h
  | ok u =>
    cases ha : assertNoExistingInv (toNFC (t.after.getD [])) (invisibleTextInv t) with
    | error e => simp [buildInvisibleText, hb, ha] at h
    | ok u2 =>
      simp only [buildInvisibleText, hb, ha] at h
      refine ⟨assertNoExistingInv_ok_iff.mp hb, assertNoExistingInv_ok_iff.mp ha,
        ?_, ?_, ?_⟩
      · by_cases hc : count = 0
        · rw [if_pos hc] at h
          injection h with h
          rw [← h]
        · rw [if_neg hc] at h
          injection h with h
          rw [← h]
      · intro hc
        rw [if_pos hc] at h
        injection h with h
        rw [← h]
        exact ⟨rfl, rfl⟩
      · intro hc
        rw [if_neg hc] at h
        injection h with h
        rw [← h]
        exact ⟨rfl, rfl⟩

theorem smartStep_ok_inv {ctx : SmartCtx} {rest : List UserId} {tk : Nat}
    {p : GhostPayload} (h : smartStep ctx rest = .ok (tk, p)) :
    1 ≤ tk ∧ tk ≤ ctx.maxPerMessage ∧ tk ≤ rest.length ∧
    p.chat_id = ctx.chatId ∧
    p.entities.map MessageEntity.userId = rest.take tk ∧
    p.entities.length = tk ∧
    (∀ e ∈ p.entities, e.length = 1) ∧
    Int.ofNat p.text.length ≤ ctx.maxTextLength ∧
    (1 ≤ ctx.inv.length → ∀ e ∈ p.entities, e.offset + e.length ≤ p.text.length) := by
  simp only [smartStep] at h
  split at h
  · exact absurd h (by simp)
  split at h
  · exact absurd h (by simp)
  split at h
  · exact absurd h (by simp)
  rename_i hzero hover htext
  split at h
  · exact absurd h (by simp)
  rename_i es heq
  simp only [Except.ok.injEq, Prod.mk.injEq] at h
  obtain ⟨htk, hp⟩ := h
  have hd := capCountByLength_le_desired
    (buildSmartBaseText ctx.msg ctx.inv 0
      (findAnchorIndex ctx.msg ⟨ctx.replaceTargets, ctx.replacePosition,
        ctx.punctuationRegex, ctx.fallbackPosition⟩)
      ctx.separateLine ctx.trailingNewline).baseLen
    (min ctx.maxPerMessage rest.length) ctx.maxTextLength
  rw [htk] at heq htext hzero hd hp
  subst hp
  have htk_le_rest : tk ≤ rest.length := le_trans hd (min_le_right _ _)
  have htk_le_mpm : tk ≤ ctx.maxPerMessage := le_trans hd (min_le_left _ _)
  have hmin : min tk rest.length = tk := min_eq_left htk_le_rest
  simp only [List.length_take, hmin] at heq htext ⊢
  obtain ⟨hl1, hmapu, hmapo, hlen, hlen1⟩ := buildEntities_ok_inv heq
  have hlen' : es.length = tk := by
    rw [hlen, List.length_take, hmin]
  refine ⟨by omega, htk_le_mpm, htk_le_rest, by trivial, hmapu, hlen', hlen1,
    by simpa using le_of_not_lt htext, ?_⟩
  intro hinv e he
  have hoff : e.offset ∈ (List.range tk).map
      (fun i => (buildSmartBaseText ctx.msg ctx.inv tk
        (findAnchorIndex ctx.msg ⟨ctx.replaceTargets, ctx.replacePosition,
          ctx.punctuationRegex, ctx.fallbackPosition⟩)
        ctx.separateLine ctx.trailingNewline).insertAt + i) := by
    rw [← hmapo]
    exact List.mem_map_of_mem _ he
  simp only [List.mem_map, List.mem_range] at hoff
  obtain ⟨i, hi, hoff⟩ := hoff
  have hlen_e : e.length = 1 := hlen1 e he
  rw [buildSmartBaseText_text_length]
  have hmul : tk ≤ tk * ctx.inv.length :=
    Nat.le_mul_of_pos_right _ (by omega)
  omega

theorem classicStep_ok_inv {ctx : ClassicCtx} {rem : List UserId} {tk : Nat}
    {p : GhostPayload} (h : classicStep ctx rem = .ok (tk, p))
    (hcap : 1 ≤ ctx.capacity) (hne : rem ≠ []) :
    1 ≤ tk ∧ tk ≤ rem.length ∧
    p.chat_id = ctx.chatId ∧
    p.entities.map MessageEntity.userId = rem.take tk ∧
    p.entities.length = tk ∧
    (∀ e ∈ p.entities, e.length = 1) ∧
    Int.ofNat p.text.length ≤ ctx.maxTextLength ∧
    (1 ≤ ctx.inv.length → ∀ e ∈ p.entities, e.offset + e.length ≤ p.text.length) := by
  simp only [classicStep] at h
  split at h
  · exact absurd h (by simp)
  rename_i r hbit
  split at h
  · exact absurd h (by simp)
  rename_i htext
  split at h
  · exact absurd h (by simp)
  rename_i es heq
  simp only [Except.ok.injEq, Prod.mk.injEq] at h
  obtain ⟨htk, hp⟩ := h
  rw [htk] at heq hbit
  subst hp
  have hrem : 1 ≤ rem.length := by
    cases rem with
    | nil => exact absurd rfl hne
    | cons a l => simp
  have htk1 : 1 ≤ tk := by rw [← htk]; exact le_min hrem hcap
  have htkle : tk ≤ rem.length := by rw [← htk]; exact min_le_left _ _
  have hpart : (rem.take tk).length = tk := by
    rw [List.length_take]
    omega
  obtain ⟨hl1, hmapu, hmapo, hlen, hlen1⟩ := buildEntities_ok_inv heq
  obtain ⟨hb, ha, hic, hz, hnz⟩ := buildInvisibleText_ok_inv hbit
  have hcount : (rem.take tk).length ≠ 0 := by omega
  obtain ⟨htexteq, hoffeq⟩ := hnz hcount
  have hinveq : invisibleTextInv { ctx.template with char := some ctx.inv } = ctx.inv := rfl
  refine ⟨htk1, htkle, rfl, hmapu, by rw [hlen, hpart], hlen1,
    by simpa using le_of_not_lt htext, ?_⟩
  intro hinv e he
  have hoff : e.offset ∈ r.offsets := by
    rw [← hmapo]
    exact List.mem_map_of_mem _ he
  rw [hoffeq] at hoff
  simp only [List.mem_map, List.mem_range] at hoff
  obtain ⟨i, hi, hoff⟩ := hoff
  have hlen_e : e.length = 1 := hlen1 e he
  rw [htexteq]
  simp only [List.length_append, repeatStr_length, hinveq]
  have hmul : (rem.take tk).length ≤ (rem.take tk).length * ctx.inv.length :=
    Nat.le_mul_of_pos_right _ (by omega)
  omega

theorem smartLoop_ok_inv {ctx : SmartCtx} :
    ∀ (fuel : Nat) (rest : List UserId) (out : List GhostPayload),
    smartLoop ctx fuel rest = some (.ok out) →
    (out.map (fun p => p.entities.map MessageEntity.userId)).flatten = rest ∧
    ∀ p ∈ out, p.chat_id = ctx.chatId ∧
      Int.ofNat p.text.length ≤ ctx.maxTextLength ∧
      p.entities.length ≤ ctx.maxPerMessage ∧
      (∀ e ∈ p.entities, e.length = 1) ∧
      (1 ≤ ctx.inv.length → ∀ e ∈ p.entities, e.offset + e.length ≤ p.text.length) := by
  intro fuel
  induction fuel with
  | zero =>
    intro rest out h
    simp [smartLoop] at h
  | succ k ih =>
    intro rest out h
    cases rest with
    | nil =>
      simp only [smartLoop, Option.some.injEq, Except.ok.injEq] at h
      subst h
      exact ⟨rfl, by intro p hp; simp at hp⟩
    | cons u us =>
      simp only [smartLoop] at h
      split at h
      · exact absurd h (by simp)
      rename_i pr hstep
      split at h
      · exact absurd h (by simp)
      · exact absurd h (by simp)
      rename_i ps hrec
      simp only [Option.some.injEq, Except.ok.injEq] at h
      subst h
      obtain ⟨h1, hmpm, hle, hchat, hmap, hplen, hlen1, htext, hoffb⟩ :=
        smartStep_ok_inv hstep
      obtain ⟨ihflat, ihall⟩ := ih _ _ hrec
      constructor
      · simp only [List.map_cons, List.flatten_cons, hmap, ihflat]
        exact List.take_append_drop _ _
      · intro p hp
        rcases List.mem_cons.mp hp with hp | hp
        · subst hp
          exact ⟨hchat, htext, by omega, hlen1, hoffb⟩
        · exact ihall p hp

theorem classicInner_ok_inv {ctx : ClassicCtx} (hcap : 1 ≤ ctx.capacity) :
    ∀ (fuel : Nat) (rem : List UserId) (out : List GhostPayload),
    classicInner ctx fuel rem = some (.ok out) →
    (out.map (fun p => p.entities.map MessageEntity.userId)).flatten = rem ∧
    ∀ p ∈ out, p.chat_id = ctx.chatId ∧
      Int.ofNat p.text.length ≤ ctx.maxTextLength ∧
      p.entities.length ≤ rem.length ∧
      (∀ e ∈ p.entities, e.length = 1) ∧
      (1 ≤ ctx.inv.length → ∀ e ∈ p.entities, e.offset + e.length ≤ p.text.length) := by
  intro fuel
  induction fuel with
  | zero =>
    intro rem out h
    simp [classicInner] at h
  | succ k ih =>
    intro rem out h
    cases rem with
    | nil =>
      simp only [classicInner, Option.some.injEq, Except.ok.injEq] at h
      subst h
      exact ⟨rfl, by intro p hp; simp at hp⟩
    | cons u us =>
      simp only [classicInner] at h
      split at h
      · exact absurd h (by simp)
      rename_i tk pl hstep
      split at h
      · exact absurd h (by simp)
      split at h
      · exact absurd h (by simp)
      · exact absurd h (by simp)
      rename_i ps hrec
      simp only [Option.some.injEq, Except.ok.injEq] at h
      subst h
      obtain ⟨h1, hle, hchat, hmap, hplen, hlen1, htext, hoffb⟩ :=
        classicStep_ok_inv hstep hcap (by simp)
      obtain ⟨ihflat, ihall⟩ := ih _ _ hrec
      constructor
      · simp only [List.map_cons, List.flatten_cons, hmap, ihflat]
        exact List.take_append_drop _ _
      · intro p hp
        rcases List.mem_cons.mp hp with hp | hp
        · subst hp
          exact ⟨hchat, htext, by omega, hlen1, hoffb⟩
        · refine ⟨(ihall p hp).1, (ihall p hp).2.1, ?_, (ihall p hp).2.2.2.1,
            (ihall p hp).2.2.2.2⟩
          have := (ihall p hp).2.2.1
          have hdl : ((u :: us).drop tk).length ≤ (u :: us).length := by
            rw [List.length_drop]
            omega
          omega

theorem classicOuter_ok_inv {ctx : ClassicCtx} (hcap : 1 ≤ ctx.capacity)
    (B : Nat) :
    ∀ (chunks : List (List UserId)) (out : List GhostPayload),
    (∀ c ∈ chunks, c.length ≤ B) →
    classicOuter ctx chunks = some (.ok out) →
    (out.map (fun p => p.entities.map MessageEntity.userId)).flatten
      = chunks.flatten ∧
    ∀ p ∈ out, p.chat_id = ctx.chatId ∧
      Int.ofNat p.text.length ≤ ctx.maxTextLength ∧
      p.entities.length ≤ B ∧
      (∀ e ∈ p.entities, e.length = 1) ∧
      (1 ≤ ctx.inv.length → ∀ e ∈ p.entities, e.offset + e.length ≤ p.text.length) := by
  intro chunks
  induction chunks with
  | nil =>
    intro out _ h
    simp only [classicOuter, Option.some.injEq, Except.ok.injEq] at h
    subst h
    exact ⟨rfl, by intro p hp; simp at hp⟩
  | cons c cs ih =>
    intro out hB h
    simp only [classicOuter] at h
    split at h
    · exact absurd h (by simp)
    split at h
    · exact absurd h (by simp)
    · exact absurd h (by simp)
    rename_i ps hinner
    split at h
    · exact absurd h (by simp)
    · exact absurd h (by simp)
    rename_i ps2 houter
    simp only [Option.some.injEq, Except.ok.injEq] at h
    subst h
    obtain ⟨iflat, iall⟩ := classicInner_ok_inv hcap _ _ _ hinner
    obtain ⟨oflat, oall⟩ := ih _ (fun c hc => hB c (List.mem_cons_of_mem _ hc)) houter
    constructor
    · simp only [List.map_append, List.flatten_append, iflat, oflat,
        List.flatten_cons]
    · intro p hp
      rcases List.mem_append.mp hp with hp | hp
      · obtain ⟨hchat, htext, hplen, hlen1, hoffb⟩ := iall p hp
        exact ⟨hchat, htext, le_trans hplen (hB c (List.mem_cons_self c cs)),
          hlen1, hoffb⟩
      · exact oall p hp

theorem chunkAux_flatten :
    ∀ (fuel : Nat) (us : List UserId) (mpm : Nat), 1 ≤ mpm →
    us.length ≤ fuel → (chunkAux fuel us mpm).flatten = us := by
  intro fuel
  induction fuel with
  | zero =>
    intro us mpm _ hlen
    have : us = [] := List.eq_nil_of_length_eq_zero (by omega)
    subst this
    rfl
  | succ k ih =>
    intro us mpm hm hlen
    cases us with
    | nil => rfl
    | cons u t =>
      simp only [chunkAux, List.flatten_cons]
      rw [ih _ _ hm (by
        simp only [List.length_drop, List.length_cons] at hlen ⊢
        omega)]
      exact List.take_append_drop _ _

theorem chunkAux_length_le :
    ∀ (fuel : Nat) (us : List UserId) (mpm : Nat),
    ∀ c ∈ chunkAux fuel us mpm, c.length ≤ mpm := by
  intro fuel
  induction fuel with
  | zero => intro us mpm c hc; simp [chunkAux] at hc
  | succ k ih =>
    intro us mpm c hc
    cases us with
    | nil => simp [chunkAux] at hc
    | cons u t =>
      simp only [chunkAux] at hc
      rcases List.mem_cons.mp hc with hc | hc
      · subst hc
        rw [List.length_take]
        omega
      · exact ih _ _ c hc

theorem smartLoop_isSome {ctx : SmartCtx} :
    ∀ (fuel : Nat) (rest : List UserId), rest.length < fuel →
    (smartLoop ctx fuel rest).isSome = true := by
  intro fuel
  induction fuel with
  | zero => intro rest h; omega
  | succ k ih =>
    intro rest hlt
    cases rest with
    | nil => simp [smartLoop]
    | cons u us =>
      simp only [smartLoop]
      cases hstep : smartStep ctx (u :: us) with
      | error e => simp
      | ok pr =>
        obtain ⟨tk, p⟩ := pr
        obtain ⟨h1, _, hle, _⟩ := smartStep_ok_inv hstep
        have hdrop : ((u :: us).drop tk).length < k := by
          rw [List.length_drop]
          simp only [List.length_cons] at hlt hle ⊢
          omega
        have hs := ih _ hdrop
        obtain ⟨v, hv⟩ := Option.isSome_iff_exists.mp hs
        cases v <;> simp [smartLoop, hstep, hv]

theorem classicInner_isSome {ctx : ClassicCtx} (hcap : 1 ≤ ctx.capacity) :
    ∀ (fuel : Nat) (rem : List UserId), rem.length < fuel →
    (classicInner ctx fuel rem).isSome = true := by
  intro fuel
  induction fuel with
  | zero => intro rem h; omega
  | succ k ih =>
    intro rem hlt
    cases rem with
    | nil => simp [classicInner]
    | cons u us =>
      simp only [classicInner]
      cases hstep : classicStep ctx (u :: us) with
      | error e => simp
      | ok pr =>
        obtain ⟨tk, p⟩ := pr
        obtain ⟨h1, hle, _⟩ := classicStep_ok_inv hstep hcap (by simp)
        by_cases hov : (ctx.onOverflow == Overflow.error
            && !((u :: us).drop tk).isEmpty) = true
        · simp [hstep, hov]
        · have hdrop : ((u :: us).drop tk).length < k := by
            rw [List.length_drop]
            simp only [List.length_cons] at hlt hle ⊢
            omega
          have hs := ih _ hdrop
          obtain ⟨v, hv⟩ := Option.isSome_iff_exists.mp hs
          cases v <;> simp [classicInner, hstep, hov, hv]

theorem classicOuter_isSome {ctx : ClassicCtx} (hcap : 1 ≤ ctx.capacity) :
    ∀ (chunks : List (List UserId)),
    (classicOuter ctx chunks).isSome = true := by
  intro chunks
  induction chunks with
  | nil => simp [classicOuter]
  | cons c cs ih =>
    simp only [classicOuter]
    by_cases hov : (ctx.onOverflow == Overflow.error && c.length > ctx.capacity) = true
    · simp [hov]
    · have hs := classicInner_isSome hcap (c.length + 1) c (by omega)
      obtain ⟨v, hv⟩ := Option.isSome_iff_exists.mp hs
      obtain ⟨w, hw⟩ := Option.isSome_iff_exists.mp ih
      cases v with
      | error e => simp [hov, hv]
      | ok ps =>
        cases w <;> simp [hov, hv, hw]

theorem buildGhostPayloads_ok_iff {c : ChatId} {u : List UserId}
    {t : GhostTemplate} {o : BuildOptions} {ps : List GhostPayload} :
    buildGhostPayloads c u t o = .ok ps ↔
    buildGhostPayloadsOpt c u t o = some (.ok ps) := by
  unfold buildGhostPayloads
  cases h : buildGhostPayloadsOpt c u t o with
  | none => simp
  | some v => simp

theorem flatten_contig_slice {α : Type} :
    ∀ (ls : List (List α)) (full : List α), ls.flatten = full →
    ∀ l ∈ ls, ∃ k, l = (full.drop k).take l.length := by
  intro ls
  induction ls with
  | nil => intro full _ l hl; simp at hl
  | cons a as ih =>
    intro full hf l hl
    rcases List.mem_cons.mp hl with hl | hl
    · subst hl
      refine ⟨0, ?_⟩
      rw [← hf]
      simp only [List.flatten_cons, List.drop_zero]
      exact (List.take_left _ _).symm
    · obtain ⟨k, hk⟩ := ih as.flatten rfl l hl
      refine ⟨a.length + k, ?_⟩
      rw [← hf]
      simp only [List.flatten_cons]
      rw [← List.drop_drop, List.drop_left]
      exact hk

theorem pickInvCharLoop_eq_none {avoidIn : List (Option JSStr)} :
    ∀ {cands : List JSStr},
    (∀ c ∈ cands, c.length = 1 → collides avoidIn c = true) →
    pickInvCharLoop avoidIn cands = none := by
  intro cands
  induction cands with
  | nil => intro _; rfl
  | cons c rest ih =>
    intro h
    simp only [pickInvCharLoop]
    by_cases hc : (c.length != 1) = true
    · rw [if_pos hc]
      exact ih (fun d hd h1 => h d (List.mem_cons_of_mem _ hd) h1)
    · rw [if_neg hc]
      have hc1 : c.length = 1 := by simpa using hc
      rw [if_pos (h c (List.mem_cons_self _ _) hc1)]
      exact ih (fun d hd h1 => h d (List.mem_cons_of_mem _ hd) h1)

theorem lastIdxWhere_eq_none {p : CodeUnit → Bool} :
    ∀ {s : JSStr}, (∀ j, j < s.length → p (s.getD j 0) = false) →
    lastIdxWhere p s = none := by
  intro s
  induction s with
  | nil => intro _; rfl
  | cons c t ih =>
    intro h
    have h0 : p c = false := by
      have := h 0 (by simp)
      simpa using this
    have ht : ∀ j, j < t.length → p (t.getD j 0) = false := by
      intro j hj
      have := h (j + 1) (by simp; omega)
      simpa using this
    simp [lastIdxWhere, ih ht, h0]

theorem lastIdxWhere_eq_some_of {p : CodeUnit → Bool} :
    ∀ {s : JSStr} {i : Nat}, i < s.length → p (s.getD i 0) = true →
    (∀ j, j < s.length → i < j → p (s.getD j 0) = false) →
    lastIdxWhere p s = some i := by
  intro s
  induction s with
  | nil => intro i hi _ _; simp at hi
  | cons c t ih =>
    intro i hi hp hmax
    cases i with
    | zero =>
      have hnone : lastIdxWhere p t = none := by
        apply lastIdxWhere_eq_none
        intro j hj
        have := hmax (j + 1) (by simp; omega) (by omega)
        simpa using this
      have h0 : p c = true := by simpa using hp
      simp [lastIdxWhere, hnone, h0]
    | succ k =>
      have hrec : lastIdxWhere p t = some k := by
        apply ih (by simp at hi; omega) (by simpa using hp)
        intro j hj hk
        have := hmax (j + 1) (by simp; omega) (by omega)
        simpa using this
      simp [lastIdxWhere, hrec]

theorem buildInvisibleText_message_irrel (n : Nat) (t : GhostTemplate)
    (m : Option JSStr) :
    buildInvisibleText n { t with message := m } = buildInvisibleText n t := rfl

theorem classicStep_message_irrel (ctx : ClassicCtx) (m : Option JSStr)
    (rem : List UserId) :
    classicStep { ctx with template := { ctx.template with message := m } } rem
      = classicStep ctx rem := rfl

theorem classicInner_message_irrel (ctx : ClassicCtx) (m : Option JSStr) :
    ∀ (fuel : Nat) (rem : List UserId),
    classicInner { ctx with template := { ctx.template with message := m } } fuel rem
      = classicInner ctx fuel rem := by
  intro fuel
  induction fuel with
  | zero => intro rem; rfl
  | succ k ih =>
    intro rem
    cases rem with
    | nil => rfl
    | cons u us =>
      simp only [classicInner, classicStep_message_irrel, ih]

theorem classicOuter_message_irrel (ctx : ClassicCtx) (m : Option JSStr) :
    ∀ (chunks : List (List UserId)),
    classicOuter { ctx with template := { ctx.template with message := m } } chunks
      = classicOuter ctx chunks := by
  intro chunks
  induction chunks with
  | nil => rfl
  | cons c cs ih =>
    simp only [classicOuter, classicInner_message_irrel, ih]

theorem smartModeOf_false_of_before {t : GhostTemplate}
    (hb : t.before.isSome = true) : smartModeOf t = false := by
  obtain ⟨b, hb'⟩ := Option.isSome_iff_exists.mp hb
  simp [smartModeOf, hb']

/-! ## Claim theorems -/

/-- C1, counterexample: a template with both `before` (fixed-affix) and
`message` (anchored) populated does not make `buildGhostPayloads` fail; it
returns a classic-mode payload. -/
theorem C1_cex_mixed_template_succeeds :
    buildGhostPayloads (Sum.inl 1) [1]
      { before := some [65], message := some [104, 105] } {} =
      .ok [⟨Sum.inl 1, [65, 0x200B], [⟨1, 1, 1⟩]⟩] := rfl

/-- C1 (amended): when the template populates both a fixed-affix field
(`before`) and the anchored field (`message`), `buildGhostPayloads` raises
no configuration error: it ignores `message` entirely and behaves exactly
as with the fixed-affix template alone (classic mode). -/
theorem C1_mixed_template_ignores_message (c : ChatId) (u : List UserId)
    (t : GhostTemplate) (o : BuildOptions) (hb : t.before.isSome = true) :
    buildGhostPayloads c u t o
      = buildGhostPayloads c u { t with message := none } o := by
  have hs1 : smartModeOf t = false := smartModeOf_false_of_before hb
  have hs2 : smartModeOf { t with message := none } = false := by
    obtain ⟨b, hb'⟩ := Option.isSome_iff_exists.mp hb
    simp [smartModeOf, hb']
  have hg : ghostInv { t with message := none } = ghostInv t := by
    rw [ghostInv, ghostInv, hs1, hs2]
    rfl
  simp only [buildGhostPayloads, buildGhostPayloadsOpt, hs1, hs2,
    Bool.false_eq_true, if_false, hg]
  rw [classicOuter_message_irrel ⟨c, t, ghostInv t,
    (max 0 ((o.maxTextLength.getD DEFAULT_MAX_TEXT) -
      (((toNFC (t.before.getD [])).length + (toNFC (t.after.getD [])).length : Nat) : Int))).toNat,
    o.maxTextLength.getD DEFAULT_MAX_TEXT, o.onOverflow.getD Overflow.split⟩ none]

/-- C1 witness: the amended equality at a concrete mixed template. -/
theorem C1_witness :
    ((some [65] : Option JSStr).isSome = true) ∧
    buildGhostPayloads (Sum.inl 1) [1]
        { before := some [65], message := some [104, 105] } {}
      = buildGhostPayloads (Sum.inl 1) [1] { before := some [65] } {} := by
  refine ⟨rfl, ?_⟩
  have := C1_mixed_template_ignores_message (Sum.inl 1) [1]
    { before := some [65], message := some [104, 105] } {} rfl
  simpa using this

/-- C2, counterexample: in smart mode a caller-forced marker that occurs in
the base message is accepted silently: `buildGhostPayloads` succeeds with
marker "x" (120) although it is a substring of the message "x". -/
theorem C2_cex_smart_marker_collision :
    buildGhostPayloads (Sum.inl 1) [1]
      { message := some [120], char := some [120] } {}
      = .ok [⟨Sum.inl 1, [120, 120], [⟨1, 1, 1⟩]⟩] ∧
    ghostInv { message := some [120], char := some [120] } = [120] ∧
    strIncludes [120] [120] = true := ⟨rfl, rfl, rfl⟩

/-- C2 (amended): in classic (fixed-affix) mode, for every non-empty
recipient list on which `buildGhostPayloads` succeeds, the chosen marker
does not occur as a substring of `before` or `after`; a collision is a
hard error.  (Smart mode performs no such check — see the
counterexample.) -/
theorem C2_classic_marker_never_collides (c : ChatId) (u : List UserId)
    (t : GhostTemplate) (o : BuildOptions) (ps : List GhostPayload)
    (hmode : smartModeOf t = false) (hne : u ≠ [])
    (h : buildGhostPayloads c u t o = .ok ps) :
    strIncludes (toNFC (t.before.getD [])) (ghostInv t) = false ∧
    strIncludes (toNFC (t.after.getD [])) (ghostInv t) = false := by
  have hue : u.isEmpty = false := by
    cases u with
    | nil => exact absurd rfl hne
    | cons a l => rfl
  rw [buildGhostPayloads_ok_iff] at h
  simp only [buildGhostPayloadsOpt, hmode, hue, Bool.false_eq_true, if_false] at h
  by_cases hb : strIncludes (toNFC (t.before.getD [])) (ghostInv t) = true
  · simp [assertNoExistingInv, hb] at h
  · have hb' : strIncludes (toNFC (t.before.getD [])) (ghostInv t) = false := by
      simpa using hb
    by_cases ha : strIncludes (toNFC (t.after.getD [])) (ghostInv t) = true
    · simp [assertNoExistingInv, hb', ha] at h
    · exact ⟨hb', by simpa using ha⟩

/-- C2 witness: the amended statement at a concrete classic template. -/
theorem C2_witness :
    smartModeOf { before := some [65], after := some [66] } = false ∧
    ([1] : List UserId) ≠ [] ∧
    strIncludes (toNFC ((some [65] : Option JSStr).getD []))
      (ghostInv { before := some [65], after := some [66] }) = false ∧
    strIncludes (toNFC ((some [66] : Option JSStr).getD []))
      (ghostInv { before := some [65], after := some [66] }) = false := by
  have h := C2_classic_marker_never_collides (Sum.inl 1) [1]
    { before := some [65], after := some [66] } {}
    [⟨Sum.inl 1, [65, 0x200B, 66], [⟨1, 1, 1⟩]⟩] rfl (by simp) rfl
  exact ⟨rfl, by simp, h.1, h.2⟩

/-- C3, counterexample: with anchor set {"!"} absent from the message
"a." and `fallbackPosition = "start"`, the resolver does not return 0 as
the claim requires: the default punctuation scan matches "." first and
the resolver returns 2. -/
theorem C3_cex_fallback_preempted_by_punctuation :
    (∀ i, i < 2 → targetsMatch [[33]] (([97, 46] : JSStr).getD i 0) = false) ∧
    findAnchorIndex [97, 46]
      ⟨some [[33]], some ReplacePosition.end', some defaultPunctRe,
        FallbackPosition.start⟩ = 2 := by
  exact ⟨by decide, rfl⟩

/-- C3 (amended): when `replacePosition` is not a concrete number and
`replaceTargets` is non-empty, the resolver returns `i+1` (or `i` when
placement is "start") for `i` the largest index whose code unit is in the
anchor set; when no anchor-set code unit occurs in the message **and the
punctuation pattern also matches no code unit of the message**, it
returns 0 for `fallbackPosition = "start"` and `message.length` for
"end". -/
theorem C3_findAnchorIndex_spec (src : JSStr) (ts : List JSStr)
    (rp : Option ReplacePosition) (pr : Option (CodeUnit → Bool))
    (fp : FallbackPosition)
    (_hts : ts ≠ []) (hrp : ∀ n : Int, rp ≠ some (ReplacePosition.num n)) :
    (∀ i, i < src.length → targetsMatch ts (src.getD i 0) = true →
      (∀ j, j < src.length → i < j → targetsMatch ts (src.getD j 0) = false) →
      findAnchorIndex src ⟨some ts, rp, pr, fp⟩ =
        if rp = some ReplacePosition.start then i else i + 1) ∧
    ((∀ i, i < src.length → targetsMatch ts (src.getD i 0) = false) →
      (∀ i, i < src.length → punctTest pr (src.getD i 0) = false) →
      findAnchorIndex src ⟨some ts, rp, pr, fp⟩ =
        match fp with
        | FallbackPosition.start => 0
        | FallbackPosition.end' => src.length) := by
  constructor
  · intro i hi hp hmax
    have hscan : lastIdxWhere (targetsMatch ts) src = some i :=
      lastIdxWhere_eq_some_of hi hp hmax
    match rp, hrp with
    | none, _ => simp [findAnchorIndex, hscan]
    | some ReplacePosition.start, _ => simp [findAnchorIndex, hscan]
    | some ReplacePosition.end', _ => simp [findAnchorIndex, hscan]
    | some (ReplacePosition.num n), hrp => exact absurd rfl (hrp n)
  · intro h1 h2
    have hs1 : lastIdxWhere (targetsMatch ts) src = none := lastIdxWhere_eq_none h1
    have hs2 : lastIdxWhere (punctTest pr) src = none := lastIdxWhere_eq_none h2
    match rp, hrp with
    | none, _ => cases fp <;> simp [findAnchorIndex, hs1, hs2]
    | some ReplacePosition.start, _ => cases fp <;> simp [findAnchorIndex, hs1, hs2]
    | some ReplacePosition.end', _ => cases fp <;> simp [findAnchorIndex, hs1, hs2]
    | some (ReplacePosition.num n), hrp => exact absurd rfl (hrp n)

/-- C3 witness: the anchor-set scan at a concrete input, "!" at index 1 of
"a!b" with default "after" placement resolves to 2. -/
theorem C3_witness :
    findAnchorIndex [97, 33, 98]
      ⟨some [[33]], none, none, FallbackPosition.end'⟩ = 2 := by
  have h := (C3_findAnchorIndex_spec [97, 33, 98] [[33]] none none
    FallbackPosition.end' (by simp) (fun n => by simp)).1 1 (by decide)
    (by decide) (by decide)
  simpa using h

/-- C4: for every input on which `buildGhostPayloads` succeeds, the
concatenation of the payloads' recipient-id sequences (in payload order)
equals the input `userIds` list exactly. -/
theorem C4_recipients_roundtrip (c : ChatId) (u : List UserId)
    (t : GhostTemplate) (o : BuildOptions) (ps : List GhostPayload)
    (h : buildGhostPayloads c u t o = .ok ps) :
    (ps.map (fun p => p.entities.map MessageEntity.userId)).flatten = u := by
  rw [buildGhostPayloads_ok_iff] at h
  simp only [buildGhostPayloadsOpt] at h
  by_cases hue : u.isEmpty = true
  · rw [if_pos hue] at h
    simp only [Option.some.injEq, Except.ok.injEq] at h
    subst h
    simp [List.isEmpty_iff.mp hue]
  · rw [if_neg hue] at h
    by_cases hsm : smartModeOf t = true
    · rw [if_pos hsm] at h
      exact (smartLoop_ok_inv _ _ _ h).1
    · rw [if_neg hsm] at h
      by_cases hb : strIncludes (toNFC (t.before.getD [])) (ghostInv t) = true
      · simp [assertNoExistingInv, hb] at h
      · have hb' : strIncludes (toNFC (t.before.getD [])) (ghostInv t) = false := by
          simpa using hb
        by_cases ha : strIncludes (toNFC (t.after.getD [])) (ghostInv t) = true
        · simp [assertNoExistingInv, hb', ha] at h
        · have ha' : strIncludes (toNFC (t.after.getD [])) (ghostInv t) = false := by
            simpa using ha
          simp only [assertNoExistingInv, hb', ha', Bool.false_eq_true,
            if_false] at h
          split at h
          · exact absurd h (by simp)
          rename_i hcap
          have hcap1 : 1 ≤ (max 0 ((o.maxTextLength.getD DEFAULT_MAX_TEXT) -
              (((toNFC (t.before.getD [])).length
                + (toNFC (t.after.getD [])).length : Nat) : Int))).toNat := by
            omega
          have hmpm1 : 1 ≤ (max 1 (o.maxPerMessage.getD 100)).toNat := by
            have h1 : (1 : Int) ≤ max 1 (o.maxPerMessage.getD 100) := le_max_left _ _
            omega
          obtain ⟨hflat, _⟩ := classicOuter_ok_inv hcap1
            ((max 1 (o.maxPerMessage.getD 100)).toNat) _ _
            (chunkAux_length_le _ _ _) h
          rw [hflat]
          exact chunkAux_flatten u.length u _ hmpm1 le_rfl

/-- C4 witness: the round trip at a concrete three-recipient input. -/
theorem C4_witness :
    (([⟨Sum.inl 1, [65, 0x200B, 0x200B, 0x200B],
        [⟨1, 1, 1⟩, ⟨2, 1, 2⟩, ⟨3, 1, 3⟩]⟩] : List GhostPayload).map
      (fun p => p.entities.map MessageEntity.userId)).flatten = [1, 2, 3] :=
  C4_recipients_roundtrip (Sum.inl 1) [1, 2, 3] { before := some [65] } {} _ rfl

/-- C5: for every input whose (given or defaulted) `maxPerMessage` is at
least 1, on success every emitted payload has `text.length ≤ maxTextLength`
(UTF-16 code units) and `entities.length ≤ maxPerMessage`. -/
theorem C5_limits_respected (c : ChatId) (u : List UserId)
    (t : GhostTemplate) (o : BuildOptions) (ps : List GhostPayload)
    (hm : 1 ≤ o.maxPerMessage.getD 100)
    (h : buildGhostPayloads c u t o = .ok ps) :
    ∀ p ∈ ps, Int.ofNat p.text.length ≤ o.maxTextLength.getD DEFAULT_MAX_TEXT ∧
      Int.ofNat p.entities.length ≤ o.maxPerMessage.getD 100 := by
  have hmax : max 1 (o.maxPerMessage.getD 100) = o.maxPerMessage.getD 100 :=
    max_eq_right hm
  rw [buildGhostPayloads_ok_iff] at h
  simp only [buildGhostPayloadsOpt] at h
  by_cases hue : u.isEmpty = true
  · rw [if_pos hue] at h
    simp only [Option.some.injEq, Except.ok.injEq] at h
    subst h
    intro p hp
    simp at hp
  · rw [if_neg hue] at h
    by_cases hsm : smartModeOf t = true
    · rw [if_pos hsm] at h
      intro p hp
      obtain ⟨hchat, htext, hplen, _⟩ := (smartLoop_ok_inv _ _ _ h).2 p hp
      refine ⟨htext, ?_⟩
      simp only at hplen
      rw [hmax] at hplen
      rw [Int.ofNat_eq_natCast]
      omega
    · rw [if_neg hsm] at h
      by_cases hb : strIncludes (toNFC (t.before.getD [])) (ghostInv t) = true
      · simp [assertNoExistingInv, hb] at h
      · have hb' : strIncludes (toNFC (t.before.getD [])) (ghostInv t) = false := by
          simpa using hb
        by_cases ha : strIncludes (toNFC (t.after.getD [])) (ghostInv t) = true
        · simp [assertNoExistingInv, hb', ha] at h
        · have ha' : strIncludes (toNFC (t.after.getD [])) (ghostInv t) = false := by
            simpa using ha
          simp only [assertNoExistingInv, hb', ha', Bool.false_eq_true,
            if_false] at h
          split at h
          · exact absurd h (by simp)
          rename_i hcap
          have hcap1 : 1 ≤ (max 0 ((o.maxTextLength.getD DEFAULT_MAX_TEXT) -
              (((toNFC (t.before.getD [])).length
                + (toNFC (t.after.getD [])).length : Nat) : Int))).toNat := by
            omega
          obtain ⟨_, hall⟩ := classicOuter_ok_inv hcap1
            ((max 1 (o.maxPerMessage.getD 100)).toNat) _ _
            (chunkAux_length_le _ _ _) h
          intro p hp
          obtain ⟨_, htext, hplen, _⟩ := hall p hp
          refine ⟨htext, ?_⟩
          rw [hmax] at hplen
          rw [Int.ofNat_eq_natCast]
          omega

/-- C5 witness: the limits at a concrete input with `maxPerMessage = 2`. -/
theorem C5_witness :
    (1 : Int) ≤ (some (2 : Int)).getD 100 ∧
    ∀ p ∈ [(⟨Sum.inl 1, [65, 0x200B, 0x200B], [⟨1, 1, 1⟩, ⟨2, 1, 2⟩]⟩ : GhostPayload),
        ⟨Sum.inl 1, [65, 0x200B], [⟨1, 1, 3⟩]⟩],
      Int.ofNat p.text.length ≤ (none : Option Int).getD DEFAULT_MAX_TEXT ∧
      Int.ofNat p.entities.length ≤ (some (2 : Int)).getD 100 := by
  refine ⟨by decide, ?_⟩
  exact C5_limits_respected (Sum.inl 1) [1, 2, 3] { before := some [65] }
    ⟨some 2, none, none⟩ _ (by decide) rfl

/-- C6: for every fixed-affix template and count `n ≥ 1` on which
`buildInvisibleText` succeeds, the text is
`before ++ marker.repeat n ++ after`, the offsets are
`before.length + i` for `i < n`, and the entities built from those
offsets carry exactly those offsets with length exactly 1. -/
theorem C6_fixed_affix_offsets (t : GhostTemplate) (n : Nat)
    (r : InvTextResult) (hn : 1 ≤ n) (h : buildInvisibleText n t = .ok r) :
    r.text = toNFC (t.before.getD []) ++ repeatStr (invisibleTextInv t) n
      ++ toNFC (t.after.getD []) ∧
    r.offsets = (List.range n).map
      (fun i => (toNFC (t.before.getD [])).length + i) ∧
    ∀ uids es, buildEntities r.offsets uids = .ok es →
      es.map MessageEntity.offset = r.offsets ∧ ∀ e ∈ es, e.length = 1 := by
  obtain ⟨_, _, _, _, hnz⟩ := buildInvisibleText_ok_inv h
  obtain ⟨ht, ho⟩ := hnz (by omega)
  refine ⟨ht, ho, ?_⟩
  intro uids es hes
  obtain ⟨_, _, hmo, _, hl1⟩ := buildEntities_ok_inv hes
  exact ⟨hmo, hl1⟩

/-- C6 witness: `before="A"`, `after="B"`, 3 recipients: text has length
5 and offsets [1,2,3]. -/
theorem C6_witness :
    buildInvisibleText 3 { before := some [65], after := some [66] }
      = .ok ⟨[65, 0x200B, 0x200B, 0x200B, 66], [1, 2, 3], [0x200B]⟩ ∧
    ([65, 0x200B, 0x200B, 0x200B, 66] : JSStr).length = 5 ∧
    ([65, 0x200B, 0x200B, 0x200B, 66] : JSStr)
      = toNFC ((some [65] : Option JSStr).getD [])
        ++ repeatStr (invisibleTextInv { before := some [65], after := some [66] }) 3
        ++ toNFC ((some [66] : Option JSStr).getD []) ∧
    ([1, 2, 3] : List Nat) = (List.range 3).map
      (fun i => (toNFC ((some [65] : Option JSStr).getD [])).length + i) := by
  have h := C6_fixed_affix_offsets { before := some [65], after := some [66] } 3
    ⟨[65, 0x200B, 0x200B, 0x200B, 66], [1, 2, 3], [0x200B]⟩ (by omega) rfl
  exact ⟨rfl, rfl, h.1, h.2.1⟩

/-- C7, counterexample: with candidates ["ab", "​"] and the single-unit
candidate colliding with the avoid string, `pickInvChar` returns the first
candidate "ab" — which has two code units — not the first *well-formed*
candidate "​" (U+200B). -/
theorem C7_cex_fallback_not_well_formed :
    (∀ cand ∈ [[97, 98], [0x200B]], (cand : JSStr).length = 1 →
      collides [some [0x200B]] cand = true) ∧
    pickInvChar [[97, 98], [0x200B]] [some [0x200B]] = [97, 98] ∧
    ([97, 98] : JSStr).length ≠ 1 := by
  exact ⟨by decide, rfl, by decide⟩

/-- C7 (amended): for every non-empty candidate list in which every
single-code-unit candidate occurs in some avoid string, `pickInvChar` does
not fail and returns the *first candidate of the list* (whether or not it
has exactly one code unit); only an empty list falls back to U+200B. -/
theorem C7_pickInvChar_exhausted (candidates : List JSStr)
    (avoidIn : List (Option JSStr)) (_hne : candidates ≠ [])
    (hall : ∀ cand ∈ candidates, cand.length = 1 →
      collides avoidIn cand = true) :
    pickInvChar candidates avoidIn = candidates.headD [0x200B] := by
  unfold pickInvChar
  rw [pickInvCharLoop_eq_none hall]

/-- C7 witness: the amended statement at the concrete exhausted input. -/
theorem C7_witness :
    ([[97, 98], [0x200B]] : List JSStr) ≠ [] ∧
    pickInvChar [[97, 98], [0x200B]] [some [0x200B]]
      = ([[97, 98], [0x200B]] : List JSStr).headD [0x200B] := by
  refine ⟨by simp, ?_⟩
  exact C7_pickInvChar_exhausted [[97, 98], [0x200B]] [some [0x200B]]
    (by simp) (by decide)

/-- C8, counterexample: in smart mode an empty caller-forced marker
(`char = ""`) is accepted, and the single emitted payload has a mention
with `offset + length = 2 > text.length = 1`. -/
theorem C8_cex_empty_marker_out_of_bounds :
    buildGhostPayloads (Sum.inl 1) [7] { message := some [109], char := some [] } {}
      = .ok [⟨Sum.inl 1, [109], [⟨1, 1, 7⟩]⟩] ∧
    ghostInv { message := some [109], char := some [] } = [] ∧
    1 + 1 > ([109] : JSStr).length := ⟨rfl, rfl, by decide⟩

/-- C8 (amended): for every input whose effective marker (`ghostInv`) is
non-empty, on success every mention of every payload satisfies
`offset + length ≤ text.length` (in code units), and each payload's
mention sequence is, in order, a contiguous slice of the input recipient
list. -/
theorem C8_offsets_in_bounds (c : ChatId) (u : List UserId)
    (t : GhostTemplate) (o : BuildOptions) (ps : List GhostPayload)
    (hinv : 1 ≤ (ghostInv t).length)
    (h : buildGhostPayloads c u t o = .ok ps) :
    ∀ p ∈ ps, (∀ e ∈ p.entities, e.offset + e.length ≤ p.text.length) ∧
      ∃ k, p.entities.map MessageEntity.userId
        = (u.drop k).take (p.entities.map MessageEntity.userId).length := by
  rw [buildGhostPayloads_ok_iff] at h
  simp only [buildGhostPayloadsOpt] at h
  by_cases hue : u.isEmpty = true
  · rw [if_pos hue] at h
    simp only [Option.some.injEq, Except.ok.injEq] at h
    subst h
    intro p hp
    simp at hp
  · rw [if_neg hue] at h
    by_cases hsm : smartModeOf t = true
    · rw [if_pos hsm] at h
      obtain ⟨hflat, hall⟩ := smartLoop_ok_inv _ _ _ h
      intro p hp
      obtain ⟨_, _, _, _, hoffb⟩ := hall p hp
      refine ⟨hoffb hinv, ?_⟩
      exact flatten_contig_slice _ _ hflat _
        (List.mem_map_of_mem (fun p => p.entities.map MessageEntity.userId) hp)
    · rw [if_neg hsm] at h
      by_cases hb : strIncludes (toNFC (t.before.getD [])) (ghostInv t) = true
      · simp [assertNoExistingInv, hb] at h
      · have hb' : strIncludes (toNFC (t.before.getD [])) (ghostInv t) = false := by
          simpa using hb
        by_cases ha : strIncludes (toNFC (t.after.getD [])) (ghostInv t) = true
        · simp [assertNoExistingInv, hb', ha] at h
        · have ha' : strIncludes (toNFC (t.after.getD [])) (ghostInv t) = false := by
            simpa using ha
          simp only [assertNoExistingInv, hb', ha', Bool.false_eq_true,
            if_false] at h
          split at h
          · exact absurd h (by simp)
          rename_i hcap
          have hcap1 : 1 ≤ (max 0 ((o.maxTextLength.getD DEFAULT_MAX_TEXT) -
              (((toNFC (t.before.getD [])).length
                + (toNFC (t.after.getD [])).length : Nat) : Int))).toNat := by
            omega
          have hmpm1 : 1 ≤ (max 1 (o.maxPerMessage.getD 100)).toNat := by
            have h1 : (1 : Int) ≤ max 1 (o.maxPerMessage.getD 100) := le_max_left _ _
            omega
          obtain ⟨hflat, hall⟩ := classicOuter_ok_inv hcap1
            ((max 1 (o.maxPerMessage.getD 100)).toNat) _ _
            (chunkAux_length_le _ _ _) h
          rw [chunkAux_flatten u.length u _ hmpm1 le_rfl] at hflat
          intro p hp
          obtain ⟨_, _, _, _, hoffb⟩ := hall p hp
          refine ⟨hoffb hinv, ?_⟩
          exact flatten_contig_slice _ _ hflat _
            (List.mem_map_of_mem (fun p => p.entities.map MessageEntity.userId) hp)

/-- C8 witness: bounds and contiguity at a concrete smart-mode input. -/
theorem C8_witness :
    1 ≤ (ghostInv { message := some [97, 98, 33], replaceTargets := some [[33]] }).length ∧
    ((∀ e ∈ [(⟨3, 1, 5⟩ : MessageEntity), ⟨4, 1, 6⟩],
        e.offset + e.length ≤ ([97, 98, 33, 0x200B, 0x200B] : JSStr).length) ∧
      ∃ k, ([(⟨3, 1, 5⟩ : MessageEntity), ⟨4, 1, 6⟩].map MessageEntity.userId)
        = (([5, 6] : List UserId).drop k).take
            ([(⟨3, 1, 5⟩ : MessageEntity), ⟨4, 1, 6⟩].map MessageEntity.userId).length) := by
  refine ⟨by decide, ?_⟩
  have h := C8_offsets_in_bounds (Sum.inl 1) [5, 6]
    { message := some [97, 98, 33], replaceTargets := some [[33]] } {}
    [⟨Sum.inl 1, [97, 98, 33, 0x200B, 0x200B], [⟨3, 1, 5⟩, ⟨4, 1, 6⟩]⟩]
    (by decide) rfl
  exact h ⟨Sum.inl 1, [97, 98, 33, 0x200B, 0x200B], [⟨3, 1, 5⟩, ⟨4, 1, 6⟩]⟩
    (by simp)

/-- C9: `buildGhostPayloads` terminates for every input: the fuelled
computation `buildGhostPayloadsOpt`, whose loops carry exactly
`recipients + 1` fuel (each smart iteration consumes at least one
recipient or throws; each classic splitting iteration shrinks the chunk
because the capacity is checked ≥ 1 beforehand), never exhausts its
fuel. -/
theorem C9_terminates (c : ChatId) (u : List UserId) (t : GhostTemplate)
    (o : BuildOptions) :
    (buildGhostPayloadsOpt c u t o).isSome = true := by
  simp only [buildGhostPayloadsOpt]
  by_cases hue : u.isEmpty = true
  · simp [hue]
  · rw [if_neg hue]
    by_cases hsm : smartModeOf t = true
    · rw [if_pos hsm]
      exact smartLoop_isSome _ _ (by omega)
    · rw [if_neg hsm]
      by_cases hb : strIncludes (toNFC (t.before.getD [])) (ghostInv t) = true
      · simp [assertNoExistingInv, hb]
      · have hb' : strIncludes (toNFC (t.before.getD [])) (ghostInv t) = false := by
          simpa using hb
        by_cases ha : strIncludes (toNFC (t.after.getD [])) (ghostInv t) = true
        · simp [assertNoExistingInv, hb', ha]
        · have ha' : strIncludes (toNFC (t.after.getD [])) (ghostInv t) = false := by
            simpa using ha
          simp only [assertNoExistingInv, hb', ha', Bool.false_eq_true, if_false]
          split
          · simp
          · rename_i hcap
            have hc1 : (1 : Nat) ≤ (max 0 ((o.maxTextLength.getD DEFAULT_MAX_TEXT) -
                (((toNFC (t.before.getD [])).length : Int)
                  + ((toNFC (t.after.getD [])).length : Int)))).toNat := by
              omega
            exact classicOuter_isSome hc1 _

/-- C10: a `maxPerMessage` below 1 is clamped to 1: `buildGhostPayloads`
behaves exactly as if `maxPerMessage` were 1; the other options are
untouched. -/
theorem C10_nonpositive_cap_clamped (c : ChatId) (u : List UserId)
    (t : GhostTemplate) (m : Int) (hm : m < 1) (mtl : Option Int)
    (ov : Option Overflow) :
    buildGhostPayloads c u t ⟨some m, mtl, ov⟩
      = buildGhostPayloads c u t ⟨some 1, mtl, ov⟩ := by
  have h1 : max 1 m = 1 := max_eq_left (by omega)
  simp only [buildGhostPayloads, buildGhostPayloadsOpt, Option.getD_some, h1,
    max_self]

/-- C10 witness: the clamp equality at `maxPerMessage = 0` with two
recipients. -/
theorem C10_witness :
    (0 : Int) < 1 ∧
    buildGhostPayloads (Sum.inl 1) [1, 2] { before := some [65] }
        ⟨some 0, none, none⟩
      = buildGhostPayloads (Sum.inl 1) [1, 2] { before := some [65] }
        ⟨some 1, none, none⟩ :=
  ⟨by omega, C10_nonpositive_cap_clamped (Sum.inl 1) [1, 2]
    { before := some [65] } 0 (by omega) none none⟩
